import Mathlib

/-!
# mmio-reg: a verification development

Shallow embedding of `mmio-reg.c`, a command-line tool that reads and writes
32-bit registers of a PCIe BAR through the sysfs resource files.

Conventions of the embedding.

* A C string is the list of the characters that stand before its terminating
  NUL; `List Char` therefore never holds the terminator.
* `uint32_t` and `uint64_t` values are natural numbers, reduced explicitly with
  `% 2 ^ 32` and `% 2 ^ 64` wherever the C code narrows or can wrap around.
* `long` and `unsigned long` are 64 bits wide, as the `%lx` conversions into
  `uint64_t` variables of `get_bar_size` presuppose.
* The mapped BAR is a list of bytes; 32-bit accesses are little-endian, as on
  the x86 hosts the tool is written for.  An access outside the region is
  undefined behaviour in C and is `none` here.
* Diagnostics written by `printf`/`perror` on error paths are not modelled; the
  table printed by `read_reg_32` is.
-/

namespace MmioReg

/-! ## Register accessor -/

/-- One byte of the mapped region. -/
abbrev Byte := Fin 256

/-- Low byte of a natural number. -/
def byteOf (n : Nat) : Byte := ⟨n % 256, Nat.mod_lt n (by decide)⟩

/-- The dereference `*(uint32_t*)((char*)pci_bar + a)` as a read: the four bytes
at `a .. a+3`, little-endian.  `none` when one of them lies outside the
region. -/
def load32 (pci_bar : List Byte) (a : Nat) : Option Nat :=
  match pci_bar[a]?, pci_bar[a + 1]?, pci_bar[a + 2]?, pci_bar[a + 3]? with
  | some b0, some b1, some b2, some b3 =>
      some (b0.val + 256 * b1.val + 65536 * b2.val + 16777216 * b3.val)
  | _, _, _, _ => none

/-- The dereference `*(uint32_t*)((char*)pci_bar + a) = v` as a write. -/
def store32 (pci_bar : List Byte) (a v : Nat) : Option (List Byte) :=
  if a + 4 ≤ pci_bar.length then
    some ((((pci_bar.set a (byteOf v)).set (a + 1) (byteOf (v / 256))).set (a + 2)
      (byteOf (v / 65536))).set (a + 3) (byteOf (v / 16777216)))
  else none

/-- What `read_reg_32` hands to `printf`: the header call, or one row call with
its two `uint32_t` arguments. -/
inductive Line where
  | header : Line
  | row (offset value : Nat) : Line
  deriving DecidableEq, Repr

/-- Digit of `%X`. -/
def hexChar (d : Nat) : Char :=
  if d < 10 then Char.ofNat (48 + d) else Char.ofNat (55 + d)

/-- Conversion `%08X` of a `uint32_t`. -/
def hex08X (n : Nat) : List Char :=
  [7, 6, 5, 4, 3, 2, 1, 0].map (fun k => hexChar (n / 16 ^ k % 16))

def COLUME_GAP : List Char := "        ".toList
def COLUME_OFFSET : List Char := "    OFFSET".toList
def COLUME_VALUE : List Char := "             VALUE".toList

/-- Text written by the `printf` call a `Line` stands for. -/
def Line.render : Line → List Char
  | Line.header => COLUME_OFFSET ++ COLUME_GAP ++ COLUME_VALUE ++ ['\n']
  | Line.row offset value =>
      "0x".toList ++ hex08X offset ++ COLUME_GAP ++ "        0x".toList ++ hex08X value ++ ['\n']

/-- The `for (i=0; i<count; i++)` loop of `read_reg_32`, with `n` iterations
left and loop counter `i`.  The printed offset `offset+i*4` is `uint32_t`
arithmetic; `reg_addr[i]` is pointer arithmetic and does not wrap. -/
def read_reg_32_loop (pci_bar : List Byte) (offset : Nat) : Nat → Nat → Option (List Line)
  | 0, _ => some []
  | n + 1, i =>
      match load32 pci_bar (offset + 4 * i) with
      | none => none
      | some v =>
          match read_reg_32_loop pci_bar offset n (i + 1) with
          | none => none
          | some rest => some (Line.row ((offset + i * 4) % 2 ^ 32) v :: rest)

/-- Model of `read_reg_32`: the header, then `count` rows. -/
def read_reg_32 (pci_bar : List Byte) (offset count : Nat) : Option (List Line) :=
  match read_reg_32_loop pci_bar offset count 0 with
  | none => none
  | some rows => some (Line.header :: rows)

/-- Model of `write_reg_32`: the region after the store. -/
def write_reg_32 (pci_bar : List Byte) (offset value : Nat) : Option (List Byte) :=
  store32 pci_bar offset value

/-- Region of 12 bytes holding the words 0xDEADBEEF, 0xCAFEBABE, 0x00000001. -/
def exampleRegion : List Byte :=
  [0xEF, 0xBE, 0xAD, 0xDE, 0xBE, 0xBA, 0xFE, 0xCA, 0x01, 0x00, 0x00, 0x00]

/-! ## C library functions used by the program

Models of the libc calls the source makes, restricted to the way it calls
them. -/

/-- White space in the "C" locale. -/
def isspace (c : Char) : Bool :=
  c = ' ' || c = '\t' || c = '\n' || c = '\x0b' || c = '\x0c' || c = '\r'

/-- Leading white space dropped. -/
def skip_space : List Char → List Char
  | [] => []
  | c :: cs => if isspace c then skip_space cs else c :: cs

/-- Value of a character as a digit (`0-9`, then letters of either case from 10 on). -/
def digitval (c : Char) : Option Nat :=
  if '0' ≤ c ∧ c ≤ '9' then some (c.toNat - 48)
  else if 'a' ≤ c ∧ c ≤ 'z' then some (c.toNat - 87)
  else if 'A' ≤ c ∧ c ≤ 'Z' then some (c.toNat - 55)
  else none

/-- Whether `c` is a digit in `base`. -/
def isdigit_in (base : Nat) (c : Char) : Bool :=
  match digitval c with
  | some d => decide (d < base)
  | none => false

/-- Longest run of digits of `base` at the head of the string: accumulated
value (not yet clamped), number of digits read, rest of the string. -/
def scan_digits (base : Nat) : List Char → Nat → Nat → Nat × Nat × List Char
  | [], acc, n => (acc, n, [])
  | c :: cs, acc, n =>
      match digitval c with
      | some d => if d < base then scan_digits base cs (acc * base + d) (n + 1) else (acc, n, c :: cs)
      | none => (acc, n, c :: cs)

/-- Optional sign at the head of a number. -/
def scan_sign : List Char → Bool × List Char
  | '-' :: t => (true, t)
  | '+' :: t => (false, t)
  | s => (false, s)

/-- Model of `strchr(s, c)` for `c` other than NUL: the suffix that starts at the
first `c`. -/
def strchr : List Char → Char → Option (List Char)
  | [], _ => none
  | x :: xs, c => if x = c then some (x :: xs) else strchr xs c

/-- Model of `strtol(s, &endptr, base)` for base 0 and base 16; `endptr` is never
read by the program. The result saturates at `LONG_MIN`/`LONG_MAX`. -/
def strtol (s : List Char) (base : Nat) : Int :=
  let (neg, s1) := scan_sign (skip_space s)
  let has0x : Bool :=
    match s1 with
    | '0' :: x :: d :: _ => (x = 'x' || x = 'X') && isdigit_in 16 d
    | _ => false
  let b : Nat :=
    if base = 0 then
      (if has0x then 16 else match s1 with
        | '0' :: _ => 8
        | _ => 10)
    else base
  let s2 := if has0x && b = 16 then s1.drop 2 else s1
  let v := (scan_digits b s2 0 0).1
  if neg then (if v > 2 ^ 63 then -(2 ^ 63 : Int) else -(v : Int))
  else (if v ≥ 2 ^ 63 then (2 ^ 63 - 1 : Int) else (v : Int))

/-- Conversion of a `long` to `uint32_t`. -/
def toU32 (z : Int) : Nat := (z % (2 ^ 32 : Int)).toNat

/-- The optional `0x` or `0X` before the digits of a `%lx` conversion. -/
def strip_0x : List Char → List Char
  | '0' :: 'x' :: t => t
  | '0' :: 'X' :: t => t
  | s => s

/-- Conversion `%lx` of `sscanf`: white space, sign, optional `0x`, hexadecimal
digits, as `strtoul` converts them (clamped to `ULONG_MAX`, negated modulo
`2 ^ 64`).  `none` is a matching failure; as in ISO C, a `0x` with no digit
after it is one. -/
def scan_lx (s : List Char) : Option (Nat × List Char) :=
  let (neg, s1) := scan_sign (skip_space s)
  match scan_digits 16 (strip_0x s1) 0 0 with
  | (_, 0, _) => none
  | (v, _, rest) =>
      if v ≥ 2 ^ 64 then some (2 ^ 64 - 1, rest)
      else if neg then some ((2 ^ 64 - v) % 2 ^ 64, rest)
      else some (v, rest)

/-- Literal characters of a `scanf` format matched against the input. -/
def match_lit : List Char → List Char → Option (List Char)
  | [], s => some s
  | _ :: _, [] => none
  | l :: ls, c :: cs => if l = c then match_lit ls cs else none

/-- Model of `sscanf(s, "0x%lx 0x%lx 0x%lx", &start_addr, &end_addr, &flags)`:
the values assigned, in order; the return value of `sscanf` is their
number. -/
def sscanf_bar (s : List Char) : List Nat :=
  match match_lit ['0', 'x'] s with
  | none => []
  | some s1 =>
    match scan_lx s1 with
    | none => []
    | some (start_addr, s2) =>
      match match_lit ['0', 'x'] (skip_space s2) with
      | none => [start_addr]
      | some s3 =>
        match scan_lx s3 with
        | none => [start_addr]
        | some (end_addr, s4) =>
          match match_lit ['0', 'x'] (skip_space s4) with
          | none => [start_addr, end_addr]
          | some s5 =>
            match scan_lx s5 with
            | none => [start_addr, end_addr]
            | some (flags, _) => [start_addr, end_addr, flags]

/-- Characters `fgets` stores when at most `n` may be read: it stops after a
newline.  Returns the characters stored and the rest of the stream. -/
def fgets_chars : Nat → List Char → List Char × List Char
  | 0, s => ([], s)
  | _ + 1, [] => ([], [])
  | n + 1, c :: cs =>
      if c = '\n' then ([c], cs)
      else ((c :: (fgets_chars n cs).1), (fgets_chars n cs).2)

/-- Model of `fgets(buf, size, fp)` on a stream that holds `fp`: `none` at end
of file, else the buffer content and the rest of the stream. -/
def fgets (size : Nat) (fp : List Char) : Option (List Char × List Char) :=
  match fp with
  | [] => none
  | _ :: _ => some (fgets_chars (size - 1) fp)

/-- The C string held by a buffer: what stands before the first NUL. -/
def cstr (buf : List Char) : List Char := buf.takeWhile (fun c => c ≠ '\x00')

/-! ## Device address resolver -/

def SYS_DEVICE_DIR : List Char := "/sys/bus/pci/devices".toList
def DEFAULT_PCIE_SLOT : List Char := "0000:".toList
def MAX_PATH_STR_WIDTH : Nat := 256
def BDF_WIDTH : Nat := 16

/-- The loop `while ((tmp_bdf = strchr(tmp_bdf, c)) != NULL) { tmp_bdf++; num++; }`
of `get_sys_bdf_dir`, bounded by `fuel` iterations. -/
def count_loop (c : Char) : Nat → List Char → Nat → Nat
  | 0, _, num => num
  | fuel + 1, tmp_bdf, num =>
      match strchr tmp_bdf c with
      | none => num
      | some t => count_loop c fuel (t.drop 1) (num + 1)

/-- Model of `get_sys_bdf_dir(bdf, sys_bdf_dir)`.  The second argument is the
content of the output buffer before the call; the result is the return value
and the content of the buffer after it.  Both pointers are non-null here, and
the buffer is taken to be large enough for the path, as the source requires of
its caller. -/
def get_sys_bdf_dir (bdf : List Char) (sys_bdf_dir : List Char) : Int × List Char :=
  let colon_num := count_loop ':' (bdf.length + 1) bdf 0
  let dot_num := count_loop '.' (bdf.length + 1) bdf 0
  if dot_num ≠ 1 then (-1, sys_bdf_dir)
  else
    match colon_num with
    | 2 => (0, SYS_DEVICE_DIR ++ ['/'] ++ bdf)
    | 1 => (0, SYS_DEVICE_DIR ++ ['/'] ++ DEFAULT_PCIE_SLOT ++ bdf)
    | _ => (-1, sys_bdf_dir)

/-! ## Resource table parser -/

def MAX_RESOURCE_LINE_WIDTH : Nat := 64
def IORESOURCE_IO : Nat := 0x00000100
def IORESOURCE_MEM : Nat := 0x00000200

/-- The loop `for (i=0; i<=bar_num; i++) fgets(bar_x_info, ...)` of
`get_bar_size` with `n` iterations left: `none` when an `fgets` fails, else the
last buffer content and the rest of the stream.  The counter `i` is an `int`;
it stays in range for every `bar_num` below `INT_MAX`, and `parse_opt` lets
through none above 5. -/
def fgets_loop : Nat → List Char → List Char → Option (List Char × List Char)
  | 0, fp, bar_x_info => some (bar_x_info, fp)
  | n + 1, fp, _ =>
      match fgets MAX_RESOURCE_LINE_WIDTH fp with
      | none => none
      | some (line, fp') => fgets_loop n fp' line

/-- Model of `get_bar_size(sys_bdf_dir, bar_num, bar_size)`.  `fs` is the file
system as `fopen(path, "r")` sees it: the content of the file, or `none` when
it cannot be opened.  `bar_size` is the value of `*bar_size` before the call;
the result is the return value and the value of `*bar_size` after it.
The subtraction and addition are `uint64_t` arithmetic, the store narrows to
`uint32_t`. -/
def get_bar_size (fs : List Char → Option (List Char)) (sys_bdf_dir : List Char)
    (bar_num : Nat) (bar_size : Nat) : Int × Nat :=
  let pci_resource_file := sys_bdf_dir ++ "/resource".toList
  match fs pci_resource_file with
  | none => (-1, bar_size)
  | some fp_resource =>
    match fgets_loop (bar_num + 1) fp_resource [] with
    | none => (-1, bar_size)
    | some (bar_x_info, _) =>
      match sscanf_bar (cstr bar_x_info) with
      | [start_addr, end_addr, flags] =>
          if flags &&& IORESOURCE_MEM ≠ IORESOURCE_MEM then (-1, bar_size)
          else (0, ((end_addr + 2 ^ 64 - start_addr + 1) % 2 ^ 64) % 2 ^ 32)
      | _ => (-1, bar_size)

/-- A resource-table line `0xSTART 0xEND 0xFLAGS` whose three fields are
written with the digit strings `ds`, `de`, `df`. -/
def resource_line (ds de df : List Char) : List Char :=
  ['0', 'x'] ++ ds ++ [' ', '0', 'x'] ++ de ++ [' ', '0', 'x'] ++ df ++ ['\n']

/-- A field of a resource line: one to sixteen hexadecimal digits. -/
def is_hex_field (ds : List Char) : Prop :=
  ds ≠ [] ∧ ds.length ≤ 16 ∧ ∀ c ∈ ds, isdigit_in 16 c = true

instance (ds : List Char) : Decidable (is_hex_field ds) := by
  unfold is_hex_field; infer_instance

/-- Number a string of hexadecimal digits denotes. -/
def hex_value (ds : List Char) : Nat :=
  ds.foldl (fun acc c => acc * 16 + (digitval c).getD 0) 0

/-- Text of a file made of the given lines, each closed by a newline. -/
def unlines (ls : List (List Char)) : List Char :=
  (ls.map (fun l => l ++ ['\n'])).flatten

/-- A line `fgets` reads in one call with the buffer of `get_bar_size`. -/
def fits_buffer (l : List Char) : Prop :=
  '\n' ∉ l ∧ l.length + 1 < MAX_RESOURCE_LINE_WIDTH

instance (l : List Char) : Decidable (fits_buffer l) := by
  unfold fits_buffer; infer_instance

/-- File system that holds one file. -/
def single_file (path content : List Char) : List Char → Option (List Char) :=
  fun p => if p = path then some content else none

/-- A resource table: a memory BAR of 1 MiB, an I/O BAR, and a 4 GiB memory BAR. -/
def exampleResource : List Char :=
  "0x90000000 0x900fffff 0x00040200\n0x000000000000e000 0x000000000000e07f 0x00000101\n0x0000000100000000 0x00000001ffffffff 0x000000000014220c\n".toList

def exampleDir : List Char := "/sys/bus/pci/devices/0000:01:00.0".toList

def exampleFs : List Char → Option (List Char) :=
  single_file "/sys/bus/pci/devices/0000:01:00.0/resource".toList exampleResource

/-! ## Command surface: `getopt_long` and `parse_opt` -/

/-- State of `getopt_long` between calls: the argument vector (which GNU
`getopt` permutes), the public variables `optind` and `optarg`, and the private
scanning state. `argc` is the length of `argv`. -/
structure Getopt where
  argv : List (List Char)
  optind : Nat
  optarg : Option (List Char)
  nextchar : List Char
  first_nonopt : Nat
  last_nonopt : Nat
  deriving DecidableEq, Repr

/-- State before the first call. -/
def Getopt.start (argv : List (List Char)) : Getopt :=
  { argv := argv, optind := 1, optarg := none, nextchar := [],
    first_nonopt := 1, last_nonopt := 1 }

/-- An entry of the `long_options` table (`flag` is `NULL` in every entry). -/
structure long_option where
  name : List Char
  has_arg : Nat
  val : Char
  deriving DecidableEq, Repr

def OPT_STRING : List Char := "r:w:b:n:s:vh".toList

def long_options : List long_option :=
  [ { name := "read".toList, has_arg := 1, val := 'r' },
    { name := "write".toList, has_arg := 1, val := 'w' },
    { name := "bar".toList, has_arg := 1, val := 'b' },
    { name := "bdf".toList, has_arg := 1, val := 's' },
    { name := "version".toList, has_arg := 0, val := 'v' },
    { name := "help".toList, has_arg := 0, val := 'h' } ]

/-- Return value of `getopt_long` for an option character. -/
def optchar (c : Char) : Int := (c.toNat : Int)

/-- The test `NONOPTION_P` of GNU `getopt`: the argument does not start with `-`,
or is `-` alone. -/
def nonoption : List Char → Bool
  | '-' :: _ :: _ => false
  | _ => true

/-- The loop of GNU `getopt` that passes over non-options: `rest` is `argv` from
`optind` on. -/
def skip_nonopts : List (List Char) → Nat → Nat
  | [], optind => optind
  | a :: rest, optind => if nonoption a then skip_nonopts rest (optind + 1) else optind

/-- The function `exchange` of GNU `getopt`: the options just processed
(`last_nonopt .. optind`) move before the non-options skipped earlier
(`first_nonopt .. last_nonopt`). -/
def exchange (g : Getopt) : Getopt :=
  { g with
    argv := g.argv.take g.first_nonopt
      ++ (g.argv.drop g.last_nonopt).take (g.optind - g.last_nonopt)
      ++ (g.argv.drop g.first_nonopt).take (g.last_nonopt - g.first_nonopt)
      ++ g.argv.drop g.optind,
    first_nonopt := g.first_nonopt + (g.optind - g.last_nonopt),
    last_nonopt := g.optind }

/-- Handling of one short option character by GNU `getopt` (the option string
has no `W;` and no optional argument). -/
def short_option (g : Getopt) : Int × Getopt :=
  match g.nextchar with
  | [] => (-1, g)
  | c :: rest =>
    let g1 := { g with nextchar := rest, optind := if rest = [] then g.optind + 1 else g.optind }
    match strchr OPT_STRING c with
    | none => (optchar '?', g1)
    | some temp =>
      if c = ':' ∨ c = ';' then (optchar '?', g1)
      else if temp[1]? = some ':' then
        if rest ≠ [] then
          (optchar c, { g1 with optarg := some rest, optind := g1.optind + 1, nextchar := [] })
        else
          match g1.argv[g1.optind]? with
          | none => (optchar '?', { g1 with nextchar := [] })
          | some a =>
              (optchar c, { g1 with optarg := some a, optind := g1.optind + 1, nextchar := [] })
      else (optchar c, g1)

/-- The function `process_long_option` of GNU `getopt` for `getopt_long`:
`nextchar` holds the argument after its `--`. -/
def process_long_option (g : Getopt) : Int × Getopt :=
  let name := g.nextchar.takeWhile (fun c => c ≠ '=')
  let nameend := g.nextchar.dropWhile (fun c => c ≠ '=')
  let pfound : Option long_option :=
    match long_options.find? (fun p => p.name = name) with
    | some p => some p
    | none =>
      match long_options.filter (fun p => name.isPrefixOf p.name) with
      | [] => none
      | p :: ps =>
          if ps.all (fun q => q.has_arg = p.has_arg ∧ q.val = p.val) then some p else none
  match pfound with
  | none => (optchar '?', { g with nextchar := [], optind := g.optind + 1 })
  | some p =>
    let g1 := { g with optind := g.optind + 1, nextchar := [] }
    if nameend ≠ [] then
      if p.has_arg ≠ 0 then (optchar p.val, { g1 with optarg := some (nameend.drop 1) })
      else (optchar '?', g1)
    else if p.has_arg = 1 then
      match g1.argv[g1.optind]? with
      | some a => (optchar p.val, { g1 with optarg := some a, optind := g1.optind + 1 })
      | none => (optchar '?', g1)
    else (optchar p.val, g1)

/-- Model of `getopt_long(argc, argv, OPT_STRING, long_options, &option_index)`
as GNU libc implements it in its default (permuting) mode, `POSIXLY_CORRECT`
unset: the return value and the state after the call. -/
def getopt_long (g0 : Getopt) : Int × Getopt :=
  let g := { g0 with optarg := none }
  match g.nextchar with
  | _ :: _ => short_option g
  | [] =>
    let g1 := { g with last_nonopt := min g.last_nonopt g.optind,
                       first_nonopt := min g.first_nonopt g.optind }
    let g2 :=
      if g1.first_nonopt ≠ g1.last_nonopt ∧ g1.last_nonopt ≠ g1.optind then exchange g1
      else if g1.last_nonopt ≠ g1.optind then { g1 with first_nonopt := g1.optind }
      else g1
    let oi := skip_nonopts (g2.argv.drop g2.optind) g2.optind
    let g3 := { g2 with optind := oi, last_nonopt := oi }
    let g4 :=
      if g3.argv[g3.optind]? = some ['-', '-'] then
        let h := { g3 with optind := g3.optind + 1 }
        let h1 :=
          if h.first_nonopt ≠ h.last_nonopt ∧ h.last_nonopt ≠ h.optind then exchange h
          else if h.first_nonopt = h.last_nonopt then { h with first_nonopt := h.optind }
          else h
        { h1 with last_nonopt := h1.argv.length, optind := h1.argv.length }
      else g3
    match g4.argv[g4.optind]? with
    | none =>
        (-1, if g4.first_nonopt ≠ g4.last_nonopt then { g4 with optind := g4.first_nonopt } else g4)
    | some a =>
        if a[1]? = some '-' then process_long_option { g4 with nextchar := a.drop 2 }
        else short_option { g4 with nextchar := a.drop 1 }

inductive op_type where
  | OP_NONE : op_type
  | OP_READ : op_type
  | OP_WRITE : op_type
  deriving DecidableEq, Repr

open op_type

def MAX_BAR_NUM : Nat := 6

/-- The request `struct input_param`.  `count` and `value` are the two members
of one union: a single field holds both. -/
structure input_param where
  operate : op_type
  bdf : List Char
  bar_num : Nat
  offset : Nat
  count : Nat
  deriving DecidableEq, Repr

/-- The union member `value`. -/
def input_param.value (p : input_param) : Nat := p.count

/-- Initial value of the global `input_param`. -/
def input_param.initial : input_param :=
  { operate := OP_NONE, bdf := [], bar_num := 0, offset := 0, count := 0 }

/-- The `while (1)` loop of `parse_opt`, bounded by `fuel` iterations; `getopt`
is the implementation of `getopt_long` in use, `operation_sem` the local of that
name.  The result is the return value and the global `input_param` at that
point; `none` when the fuel runs out, or where the C code would pass a null
`optarg` to `strtol`.  The values `strtol` returns are narrowed to the
`uint32_t` members they are assigned to before any test reads them. -/
def parse_opt_loop (getopt : Getopt → Int × Getopt) (argc : Nat) :
    Nat → Getopt → input_param → Nat → Option (Int × input_param)
  | 0, _, _, _ => none
  | fuel + 1, g0, ip, operation_sem =>
    let ret := (getopt g0).1
    let g := (getopt g0).2
    if ret = -1 then
      if g.optind < argc then some (-1, ip)
      else if argc = 1 then some (-1, ip)
      else if ip.bdf = [] then some (-1, ip)
      else if ip.operate = OP_NONE then some (-1, ip)
      else some (0, ip)
    else if ret = optchar 'r' then
      if operation_sem = 1 then some (-1, ip)
      else
        match g.optarg with
        | none => none
        | some optarg =>
          let ip1 := { ip with operate := OP_READ, offset := toU32 (strtol optarg 16) }
          match g.argv[g.optind]? with
          | some a =>
            if g.optind ≠ argc ∧ a.head? ≠ some '-' then
              let ip2 := { ip1 with count := toU32 (strtol a 0) }
              if ip2.count > 0x100000 then some (-1, ip2)
              else parse_opt_loop getopt argc fuel { g with optind := g.optind + 1 } ip2 1
            else
              let ip2 := { ip1 with count := 1 }
              if ip2.count > 0x100000 then some (-1, ip2)
              else parse_opt_loop getopt argc fuel g ip2 1
          | none =>
              let ip2 := { ip1 with count := 1 }
              if ip2.count > 0x100000 then some (-1, ip2)
              else parse_opt_loop getopt argc fuel g ip2 1
    else if ret = optchar 'w' then
      if operation_sem = 1 then some (-1, ip)
      else
        match g.optarg with
        | none => none
        | some optarg =>
          let ip1 := { ip with operate := OP_WRITE, offset := toU32 (strtol optarg 16) }
          match g.argv[g.optind]? with
          | some a =>
            if g.optind = argc ∨ a.head? = some '-' then some (-1, ip1)
            else
              parse_opt_loop getopt argc fuel { g with optind := g.optind + 1 }
                { ip1 with count := toU32 (strtol a 16) } 1
          | none => some (-1, ip1)
    else if ret = optchar 's' then
      match g.optarg with
      | none => some (-1, ip)
      | some optarg =>
        if optarg.head? = some '-' then some (-1, ip)
        else if optarg.length ≥ BDF_WIDTH then some (-1, ip)
        else parse_opt_loop getopt argc fuel g { ip with bdf := optarg } operation_sem
    else if ret = optchar 'b' then
      match g.optarg with
      | none => some (-1, ip)
      | some optarg =>
        if optarg.head? = some '-' then some (-1, ip)
        else
          let ip1 := { ip with bar_num := toU32 (strtol optarg 0) }
          if ip1.bar_num ≥ MAX_BAR_NUM then some (-1, ip1)
          else parse_opt_loop getopt argc fuel g ip1 operation_sem
    else some (-1, ip)

/-- Model of `parse_opt(argc, argv)` as `main` calls it: first use of
`getopt_long`, global `input_param` in its initial state. -/
def parse_opt_with (getopt : Getopt → Int × Getopt) (fuel : Nat) (argv : List (List Char)) :
    Option (Int × input_param) :=
  parse_opt_loop getopt argv.length fuel (Getopt.start argv) input_param.initial 0

/-- `parse_opt` with the GNU `getopt_long`. -/
def parse_opt (fuel : Nat) (argv : List (List Char)) : Option (Int × input_param) :=
  parse_opt_with getopt_long fuel argv

/-- The request is valid for the core. -/
def input_param.valid (p : input_param) : Prop :=
  (p.operate = OP_READ ∨ p.operate = OP_WRITE) ∧ p.bar_num < MAX_BAR_NUM ∧
  p.bdf ≠ [] ∧ p.bdf.length < BDF_WIDTH ∧ (p.operate = OP_READ → p.count ≤ 1048576)

/-- Invariant of the loop of `parse_opt` on the global request. -/
def request_inv (p : input_param) : Prop :=
  p.bar_num < MAX_BAR_NUM ∧ p.bdf.length < BDF_WIDTH ∧ (p.operate = OP_READ → p.count ≤ 1048576)

/-- Command line `mmio-reg -s 01:00.0 -r 0 4294967297`. -/
def argv_big_count : List (List Char) :=
  ["mmio-reg".toList, "-s".toList, "01:00.0".toList, "-r".toList, "0".toList,
   "4294967297".toList]

/-- Command line `mmio-reg -s 01:00.0 -b 2 -r 0x10 3`. -/
def argv_read3 : List (List Char) :=
  ["mmio-reg".toList, "-s".toList, "01:00.0".toList, "-b".toList, "2".toList,
   "-r".toList, "0x10".toList, "3".toList]

/-! # Theorems -/

/-! ### Lemmas on the byte-level accesses -/

theorem load32_isSome (m : List Byte) (a : Nat) (h : a + 4 ≤ m.length) :
    ∃ v, load32 m a = some v ∧ v < 2 ^ 32 := by
  have h0 : a < m.length := by omega
  have h1 : a + 1 < m.length := by omega
  have h2 : a + 2 < m.length := by omega
  have h3 : a + 3 < m.length := by omega
  refine ⟨(m[a]).val + 256 * (m[a + 1]).val + 65536 * (m[a + 2]).val
    + 16777216 * (m[a + 3]).val, ?_, ?_⟩
  · simp [load32, List.getElem?_eq_getElem, h0, h1, h2, h3]
  · have := (m[a]).isLt
    have := (m[a + 1]).isLt
    have := (m[a + 2]).isLt
    have := (m[a + 3]).isLt
    omega

theorem store32_length (m m' : List Byte) (a v : Nat) (h : store32 m a v = some m') :
    m'.length = m.length := by
  unfold store32 at h
  split at h
  · cases h; simp
  · cases h

theorem store32_other (m m' : List Byte) (a v j : Nat) (h : store32 m a v = some m')
    (hj : j < a ∨ a + 4 ≤ j) : m'[j]? = m[j]? := by
  unfold store32 at h
  split at h
  · cases h
    rw [List.getElem?_set_ne (by omega), List.getElem?_set_ne (by omega),
      List.getElem?_set_ne (by omega), List.getElem?_set_ne (by omega)]
  · cases h

theorem load32_store32 (m m' : List Byte) (a v : Nat) (h : store32 m a v = some m')
    (hv : v < 2 ^ 32) : load32 m' a = some v := by
  unfold store32 at h
  split at h
  next hlen =>
    cases h
    have e0 : ((((m.set a (byteOf v)).set (a + 1) (byteOf (v / 256))).set (a + 2)
        (byteOf (v / 65536))).set (a + 3) (byteOf (v / 16777216)))[a]? = some (byteOf v) := by
      rw [List.getElem?_set_ne (by omega), List.getElem?_set_ne (by omega),
        List.getElem?_set_ne (by omega), List.getElem?_set_self (by omega)]
    have e1 : ((((m.set a (byteOf v)).set (a + 1) (byteOf (v / 256))).set (a + 2)
        (byteOf (v / 65536))).set (a + 3) (byteOf (v / 16777216)))[a + 1]?
        = some (byteOf (v / 256)) := by
      rw [List.getElem?_set_ne (by omega), List.getElem?_set_ne (by omega),
        List.getElem?_set_self (by simp; omega)]
    have e2 : ((((m.set a (byteOf v)).set (a + 1) (byteOf (v / 256))).set (a + 2)
        (byteOf (v / 65536))).set (a + 3) (byteOf (v / 16777216)))[a + 2]?
        = some (byteOf (v / 65536)) := by
      rw [List.getElem?_set_ne (by omega), List.getElem?_set_self (by simp; omega)]
    have e3 : ((((m.set a (byteOf v)).set (a + 1) (byteOf (v / 256))).set (a + 2)
        (byteOf (v / 65536))).set (a + 3) (byteOf (v / 16777216)))[a + 3]?
        = some (byteOf (v / 16777216)) := by
      rw [List.getElem?_set_self (by simp; omega)]
    unfold load32
    rw [e0, e1, e2, e3]
    simp only [byteOf, Option.some.injEq]
    omega
  next => cases h

theorem read_reg_32_loop_spec (pci_bar : List Byte) (offset : Nat)
    (hmap : pci_bar.length ≤ 2 ^ 32) :
    ∀ n i, offset + 4 * (i + n) ≤ pci_bar.length →
      ∃ rows, read_reg_32_loop pci_bar offset n i = some rows ∧ rows.length = n ∧
        ∀ k, k < n → ∃ v, load32 pci_bar (offset + 4 * (i + k)) = some v ∧
          rows[k]? = some (Line.row (offset + 4 * (i + k)) v) := by
  intro n
  induction n with
  | zero =>
    intro i _
    exact ⟨[], rfl, rfl, fun k hk => absurd hk (Nat.not_lt_zero k)⟩
  | succ n ih =>
    intro i hin
    obtain ⟨v, hv, _⟩ := load32_isSome pci_bar (offset + 4 * i) (by omega)
    obtain ⟨rest, hrest, hlen, hrows⟩ := ih (i + 1) (by omega)
    refine ⟨Line.row ((offset + i * 4) % 2 ^ 32) v :: rest, ?_, by simp [hlen], ?_⟩
    · simp only [read_reg_32_loop, hv, hrest]
    · intro k hk
      cases k with
      | zero =>
        refine ⟨v, by simpa using hv, ?_⟩
        have e : (offset + i * 4) % 2 ^ 32 = offset + 4 * (i + 0) := by omega
        rw [List.getElem?_cons_zero, e]
      | succ k =>
        obtain ⟨w, hw, hget⟩ := hrows k (by omega)
        have e : i + 1 + k = i + (k + 1) := by omega
        rw [e] at hw hget
        exact ⟨w, hw, by simpa using hget⟩

theorem count_strchr (c : Char) :
    ∀ s : List Char,
      (strchr s c = none → s.count c = 0) ∧
      (∀ t, strchr s c = some t → s.count c = 1 + (t.drop 1).count c ∧
        (t.drop 1).length < s.length) := by
  intro s
  induction s with
  | nil => simp [strchr]
  | cons x xs ih =>
    by_cases hx : x = c
    · subst hx
      simp [strchr]
      omega
    · have hx' : (x == c) = false := by simpa using hx
      simp only [strchr, hx, if_false, List.count_cons, hx', Bool.false_eq_true]
      refine ⟨fun h => by simpa using ih.1 h, fun t ht => ?_⟩
      have := ih.2 t ht
      simp only [List.length_cons]
      omega

theorem count_loop_eq (c : Char) :
    ∀ fuel (s : List Char) (num : Nat), s.length < fuel →
      count_loop c fuel s num = num + s.count c := by
  intro fuel
  induction fuel with
  | zero => intro s num h; omega
  | succ fuel ih =>
    intro s num h
    unfold count_loop
    cases hs : strchr s c with
    | none => simp [(count_strchr c s).1 hs]
    | some t =>
      obtain ⟨hc, hl⟩ := (count_strchr c s).2 t hs
      simp only
      rw [ih (t.drop 1) (num + 1) (by omega), hc]
      omega

theorem get_sys_bdf_dir_eq (bdf buf : List Char) :
    get_sys_bdf_dir bdf buf =
      if bdf.count '.' ≠ 1 then (-1, buf)
      else if bdf.count ':' = 2 then (0, SYS_DEVICE_DIR ++ ['/'] ++ bdf)
      else if bdf.count ':' = 1 then (0, SYS_DEVICE_DIR ++ ['/'] ++ DEFAULT_PCIE_SLOT ++ bdf)
      else (-1, buf) := by
  unfold get_sys_bdf_dir
  rw [count_loop_eq ':' _ bdf 0 (by omega), count_loop_eq '.' _ bdf 0 (by omega)]
  simp only [Nat.zero_add]
  by_cases hd : bdf.count '.' = 1
  · simp only [hd, ne_eq, not_true_eq_false, if_false]
    by_cases h2 : bdf.count ':' = 2
    · simp [h2]
    · by_cases h1 : bdf.count ':' = 1
      · simp [h1]
      · simp only [h2, h1, if_false]
  · simp [hd]

/-- A path built for an address that fits `input_param.bdf` fits the buffer of
`MAX_PATH_STR_WIDTH` bytes `main` passes, terminator included. -/
theorem get_sys_bdf_dir_fits (bdf buf : List Char) (h : bdf.length < BDF_WIDTH)
    (hret : (get_sys_bdf_dir bdf buf).1 = 0) :
    (get_sys_bdf_dir bdf buf).2.length + 1 ≤ MAX_PATH_STR_WIDTH := by
  rw [get_sys_bdf_dir_eq] at hret ⊢
  unfold BDF_WIDTH at h
  by_cases hd : bdf.count '.' = 1
  · by_cases h2 : bdf.count ':' = 2
    · simp [hd, h2, SYS_DEVICE_DIR, MAX_PATH_STR_WIDTH]; omega
    · by_cases h1 : bdf.count ':' = 1
      · simp [hd, h1, SYS_DEVICE_DIR, DEFAULT_PCIE_SLOT, MAX_PATH_STR_WIDTH]; omega
      · simp [hd, h1, h2] at hret
  · simp [hd] at hret

/-! ### Lemmas on the resource table parser -/

theorem hexdigit_facts (c : Char) (h : isdigit_in 16 c = true) :
    isspace c = false ∧ c ≠ '-' ∧ c ≠ '+' ∧ c ≠ 'x' ∧ c ≠ 'X' ∧ c ≠ '\n' ∧ c ≠ '\x00' := by
  refine ⟨?_, ?_, ?_, ?_, ?_, ?_, ?_⟩
  · simp only [isspace, Bool.or_eq_false_iff, decide_eq_false_iff_not]
    refine ⟨⟨⟨⟨⟨?_, ?_⟩, ?_⟩, ?_⟩, ?_⟩, ?_⟩ <;> (rintro rfl; revert h; decide)
  all_goals (rintro rfl; revert h; decide)

theorem digitval_lt (c : Char) (h : isdigit_in 16 c = true) : (digitval c).getD 0 < 16 := by
  unfold isdigit_in at h
  cases hd : digitval c with
  | none => simp
  | some d => simpa [hd] using h

theorem scan_digits_hex (ds : List Char) (c : Char) (rest : List Char)
    (hc : isdigit_in 16 c = false) :
    (∀ x ∈ ds, isdigit_in 16 x = true) → ∀ acc n,
      scan_digits 16 (ds ++ c :: rest) acc n =
        (ds.foldl (fun a x => a * 16 + (digitval x).getD 0) acc, n + ds.length, c :: rest) := by
  induction ds with
  | nil =>
    intro _ acc n
    unfold isdigit_in at hc
    cases hd : digitval c with
    | none => simp [scan_digits, hd]
    | some d =>
      have : ¬ d < 16 := by simpa [hd] using hc
      simp [scan_digits, hd, this]
  | cons x xs ih =>
    intro hds acc n
    have hx : isdigit_in 16 x = true := hds x (List.mem_cons_self x xs)
    have hxs : ∀ y ∈ xs, isdigit_in 16 y = true := fun y hy => hds y (List.mem_cons_of_mem x hy)
    unfold isdigit_in at hx
    cases hd : digitval x with
    | none => simp [hd] at hx
    | some d =>
      have hlt : d < 16 := by simpa [hd] using hx
      simp only [List.cons_append, scan_digits, hd, hlt, if_true, List.foldl_cons,
        Option.getD_some, List.length_cons]
      refine (ih hxs _ _).trans ?_
      have : n + 1 + xs.length = n + (xs.length + 1) := by omega
      rw [this]

theorem hex_foldl_bound (ds : List Char) (hds : ∀ x ∈ ds, isdigit_in 16 x = true) :
    ∀ acc, ds.foldl (fun a x => a * 16 + (digitval x).getD 0) acc < (acc + 1) * 16 ^ ds.length := by
  induction ds with
  | nil => intro acc; simp
  | cons x xs ih =>
    intro acc
    have hx := digitval_lt x (hds x (List.mem_cons_self x xs))
    have h := ih (fun y hy => hds y (List.mem_cons_of_mem x hy)) (acc * 16 + (digitval x).getD 0)
    simp only [List.foldl_cons, List.length_cons]
    calc _ < (acc * 16 + (digitval x).getD 0 + 1) * 16 ^ xs.length := h
      _ ≤ ((acc + 1) * 16) * 16 ^ xs.length := Nat.mul_le_mul_right _ (by omega)
      _ = (acc + 1) * 16 ^ (xs.length + 1) := by rw [Nat.pow_succ, Nat.mul_assoc, Nat.mul_comm 16]

theorem hex_value_lt (ds : List Char) (h : is_hex_field ds) : hex_value ds < 2 ^ 64 := by
  obtain ⟨_, hlen, hds⟩ := h
  have h1 := hex_foldl_bound ds hds 0
  have h2 : 16 ^ ds.length ≤ 16 ^ 16 := Nat.pow_le_pow_right (by decide) hlen
  have h3 : (16 : Nat) ^ 16 = 2 ^ 64 := by norm_num
  unfold hex_value
  omega

theorem scan_sign_other (c : Char) (t : List Char) (h1 : c ≠ '-') (h2 : c ≠ '+') :
    scan_sign (c :: t) = (false, c :: t) := by
  unfold scan_sign
  split
  · rename_i heq; cases heq; exact absurd rfl h1
  · rename_i heq; cases heq; exact absurd rfl h2
  · rfl

theorem strip_0x_other (a b : Char) (t : List Char) (h1 : b ≠ 'x') (h2 : b ≠ 'X') :
    strip_0x (a :: b :: t) = a :: b :: t := by
  unfold strip_0x
  split
  · rename_i heq; cases heq; exact absurd rfl h1
  · rename_i heq; cases heq; exact absurd rfl h2
  · rfl

theorem scan_lx_field (ds : List Char) (c : Char) (rest : List Char) (h : is_hex_field ds)
    (hc : isdigit_in 16 c = false) (hx : c ≠ 'x') (hX : c ≠ 'X') :
    scan_lx (ds ++ c :: rest) = some (hex_value ds, c :: rest) := by
  have hv := hex_value_lt ds h
  obtain ⟨hne, hlen, hds⟩ := h
  cases ds with
  | nil => exact absurd rfl hne
  | cons d ds' =>
    have hd := hexdigit_facts d (hds d (List.mem_cons_self d ds'))
    have hstrip : strip_0x (d :: (ds' ++ c :: rest)) = d :: (ds' ++ c :: rest) := by
      cases ds' with
      | nil => exact strip_0x_other d c rest hx hX
      | cons e es =>
        have he := hexdigit_facts e (hds e (by simp))
        exact strip_0x_other d e _ he.2.2.2.1 he.2.2.2.2.1
    have hscan := scan_digits_hex (d :: ds') c rest hc hds 0 0
    simp only [List.cons_append, List.length_cons, Nat.zero_add] at hscan
    unfold hex_value at hv ⊢
    have : ¬ (List.foldl (fun a x => a * 16 + (digitval x).getD 0) 0 (d :: ds') ≥ 2 ^ 64) := by
      omega
    show scan_lx (d :: (ds' ++ c :: rest)) = _
    simp only [scan_lx, skip_space, hd.1, Bool.false_eq_true, if_false,
      scan_sign_other d _ hd.2.1 hd.2.2.1]
    rw [hstrip, hscan]
    simp only [this, if_false]

theorem resource_line_eq (ds de df : List Char) :
    resource_line ds de df =
      '0' :: 'x' :: (ds ++ ' ' :: ('0' :: 'x' :: (de ++ ' ' :: ('0' :: 'x' :: (df ++ '\n' :: []))))) := by
  simp [resource_line]

theorem sscanf_bar_line (ds de df : List Char) (hs : is_hex_field ds) (he : is_hex_field de)
    (hf : is_hex_field df) :
    sscanf_bar (resource_line ds de df) = [hex_value ds, hex_value de, hex_value df] := by
  have h1 := scan_lx_field ds ' ' ('0' :: 'x' :: (de ++ ' ' :: ('0' :: 'x' :: (df ++ '\n' :: []))))
    hs (by decide) (by decide) (by decide)
  have h2 := scan_lx_field de ' ' ('0' :: 'x' :: (df ++ '\n' :: []))
    he (by decide) (by decide) (by decide)
  have h3 := scan_lx_field df '\n' [] hf (by decide) (by decide) (by decide)
  have hsp : isspace ' ' = true := by decide
  have h0 : isspace '0' = false := by decide
  rw [resource_line_eq]
  unfold sscanf_bar
  simp only [match_lit, if_true, h1, skip_space, hsp, h0, Bool.false_eq_true, if_false, h2, h3]

theorem cstr_resource_line (ds de df : List Char) (hs : is_hex_field ds) (he : is_hex_field de)
    (hf : is_hex_field df) : cstr (resource_line ds de df) = resource_line ds de df := by
  unfold cstr
  rw [List.takeWhile_eq_self_iff]
  intro c hc
  have hnz : c ≠ '\x00' := by
    simp only [resource_line, List.mem_append, List.mem_cons, List.mem_singleton,
      List.not_mem_nil, or_false] at hc
    rcases hc with ((((((h | h) | h) | h | h | h) | h) | h | h | h) | h) | h
    · rw [h]; decide
    · rw [h]; decide
    · exact (hexdigit_facts c (hs.2.2 c h)).2.2.2.2.2.2
    · rw [h]; decide
    · rw [h]; decide
    · rw [h]; decide
    · exact (hexdigit_facts c (he.2.2 c h)).2.2.2.2.2.2
    · rw [h]; decide
    · rw [h]; decide
    · rw [h]; decide
    · exact (hexdigit_facts c (hf.2.2 c h)).2.2.2.2.2.2
    · rw [h]; decide
  simpa using hnz

theorem resource_line_fits (ds de df : List Char) (hs : is_hex_field ds) (he : is_hex_field de)
    (hf : is_hex_field df) :
    ∃ body, resource_line ds de df = body ++ ['\n'] ∧ fits_buffer body := by
  refine ⟨['0', 'x'] ++ ds ++ [' ', '0', 'x'] ++ de ++ [' ', '0', 'x'] ++ df, rfl, ?_, ?_⟩
  · intro hc
    simp only [List.mem_append, List.mem_cons, List.mem_singleton,
      List.not_mem_nil, or_false] at hc
    rcases hc with (((((h | h) | h) | h | h | h) | h) | h | h | h) | h
    · exact absurd h (by decide)
    · exact absurd h (by decide)
    · exact (hexdigit_facts _ (hs.2.2 _ h)).2.2.2.2.2.1 rfl
    · exact absurd h (by decide)
    · exact absurd h (by decide)
    · exact absurd h (by decide)
    · exact (hexdigit_facts _ (he.2.2 _ h)).2.2.2.2.2.1 rfl
    · exact absurd h (by decide)
    · exact absurd h (by decide)
    · exact absurd h (by decide)
    · exact (hexdigit_facts _ (hf.2.2 _ h)).2.2.2.2.2.1 rfl
  · have := hs.2.1
    have := he.2.1
    have := hf.2.1
    simp only [List.length_append, List.length_cons, List.length_nil, MAX_RESOURCE_LINE_WIDTH]
    omega

theorem fgets_chars_line (rest : List Char) :
    ∀ (l : List Char) (n : Nat), '\n' ∉ l → l.length < n →
      fgets_chars n (l ++ '\n' :: rest) = (l ++ ['\n'], rest) := by
  intro l
  induction l with
  | nil =>
    intro n _ hn
    obtain ⟨m, rfl⟩ : ∃ m, n = m + 1 := ⟨n - 1, by simp at hn; omega⟩
    simp [fgets_chars]
  | cons x xs ih =>
    intro n hx hn
    obtain ⟨m, rfl⟩ : ∃ m, n = m + 1 := ⟨n - 1, by simp at hn; omega⟩
    have hx1 : x ≠ '\n' := fun h => hx (by simp [h])
    have hx2 : '\n' ∉ xs := fun h => hx (List.mem_cons_of_mem x h)
    have := ih m hx2 (by simp at hn; omega)
    show fgets_chars (m + 1) (x :: (xs ++ '\n' :: rest)) = _
    simp only [fgets_chars, hx1, if_false, this, List.cons_append]

theorem fgets_line (l rest : List Char) (h : fits_buffer l) :
    fgets MAX_RESOURCE_LINE_WIDTH (l ++ '\n' :: rest) = some (l ++ ['\n'], rest) := by
  obtain ⟨hnl, hlen⟩ := h
  have := fgets_chars_line rest l (MAX_RESOURCE_LINE_WIDTH - 1) hnl (by omega)
  cases l with
  | nil => simpa [fgets] using this
  | cons x xs => simpa [fgets] using this

theorem fgets_loop_lines (body rest : List Char) (hbody : fits_buffer body) :
    ∀ (pre : List (List Char)) (buf : List Char), (∀ l ∈ pre, fits_buffer l) →
      fgets_loop (pre.length + 1) (unlines pre ++ (body ++ ['\n']) ++ rest) buf
        = some (body ++ ['\n'], rest) := by
  intro pre
  induction pre with
  | nil =>
    intro buf _
    have := fgets_line body rest hbody
    simp only [unlines, List.map_nil, List.flatten_nil, List.nil_append, List.length_nil,
      Nat.zero_add, List.append_assoc, List.singleton_append, fgets_loop, this]
  | cons p ps ih =>
    intro buf hpre
    have hp := fgets_line p (unlines ps ++ (body ++ ['\n']) ++ rest) (hpre p (by simp))
    have e : unlines (p :: ps) ++ (body ++ ['\n']) ++ rest
        = p ++ '\n' :: (unlines ps ++ (body ++ ['\n']) ++ rest) := by
      simp [unlines]
    rw [e]
    simp only [List.length_cons, fgets_loop, hp]
    exact ih (p ++ ['\n']) (fun l hl => hpre l (List.mem_cons_of_mem p hl))

/-- Outcome of `get_bar_size` on a table whose line `bar_num` is a well-formed
memory-resource line: success, with the size narrowed to 32 bits. -/
theorem get_bar_size_line (fs : List Char → Option (List Char)) (sys_bdf_dir : List Char)
    (bar_num bar_size : Nat) (pre : List (List Char)) (ds de df rest : List Char)
    (hfile : fs (sys_bdf_dir ++ "/resource".toList)
      = some (unlines pre ++ resource_line ds de df ++ rest))
    (hpre : pre.length = bar_num) (hfit : ∀ l ∈ pre, fits_buffer l)
    (hs : is_hex_field ds) (he : is_hex_field de) (hf : is_hex_field df)
    (hle : hex_value ds ≤ hex_value de)
    (hmem : hex_value df &&& IORESOURCE_MEM = IORESOURCE_MEM) :
    get_bar_size fs sys_bdf_dir bar_num bar_size
      = (0, (hex_value de - hex_value ds + 1) % 2 ^ 32) := by
  obtain ⟨body, hbody, hfits⟩ := resource_line_fits ds de df hs he hf
  have hloop := fgets_loop_lines body rest hfits pre [] hfit
  rw [← hbody, hpre] at hloop
  have hparse := sscanf_bar_line ds de df hs he hf
  have hE := hex_value_lt de he
  unfold get_bar_size
  simp only [hfile, hloop, cstr_resource_line ds de df hs he hf, hparse, hmem, ne_eq,
    not_true_eq_false, if_false]
  congr 1
  omega

/-! ## Register accessor: claims -/

/-- C5: when `offset + 4*count` lies within a region mapped by the program (at
most `2^32` bytes), `read_reg_32` emits the header and then exactly `count`
rows, in ascending order, the `i`-th pairing `offset + 4*i` with the 32-bit
value stored at byte `offset + 4*i`. -/
theorem read_reg_32_rows (pci_bar : List Byte) (offset count : Nat)
    (hmap : pci_bar.length ≤ 2 ^ 32) (hin : offset + 4 * count ≤ pci_bar.length) :
    ∃ rows, read_reg_32 pci_bar offset count = some (Line.header :: rows) ∧
      rows.length = count ∧
      ∀ i, i < count → ∃ v, load32 pci_bar (offset + 4 * i) = some v ∧
        rows[i]? = some (Line.row (offset + 4 * i) v) := by
  obtain ⟨rows, hrows, hlen, hget⟩ :=
    read_reg_32_loop_spec pci_bar offset hmap count 0 (by omega)
  refine ⟨rows, by simp [read_reg_32, hrows], hlen, fun i hi => ?_⟩
  simpa using hget i hi

/-- C5, the example of the specification: offset 0, count 3 over the region
holding 0xDEADBEEF, 0xCAFEBABE, 0x00000001. -/
theorem read_reg_32_rows_witness :
    exampleRegion.length ≤ 2 ^ 32 ∧ 0 + 4 * 3 ≤ exampleRegion.length ∧
    (∃ rows, read_reg_32 exampleRegion 0 3 = some (Line.header :: rows) ∧
      rows.length = 3 ∧
      ∀ i, i < 3 → ∃ v, load32 exampleRegion (0 + 4 * i) = some v ∧
        rows[i]? = some (Line.row (0 + 4 * i) v)) ∧
    read_reg_32 exampleRegion 0 3 =
      some [Line.header, Line.row 0x00000000 0xDEADBEEF, Line.row 0x00000004 0xCAFEBABE,
        Line.row 0x00000008 0x00000001] :=
  ⟨by decide, by decide, read_reg_32_rows exampleRegion 0 3 (by decide) (by decide), by decide⟩

/-- Text printed for the example region: header and three rows. -/
theorem read_reg_32_example_text :
    (read_reg_32 exampleRegion 0 3).map (fun ls => (ls.map Line.render).flatten)
      = some ("    OFFSET                     VALUE\n0x00000000                0xDEADBEEF\n0x00000004                0xCAFEBABE\n0x00000008                0x00000001\n".toList) := by
  decide

/-- C6: a `read_reg_32` of one register at `offset`, right after
`write_reg_32` stored the 32-bit value `v` there, yields `v`. -/
theorem write_reg_32_read_back (pci_bar : List Byte) (offset v : Nat)
    (hoff : offset < 2 ^ 32) (hin : offset + 4 ≤ pci_bar.length) (hv : v < 2 ^ 32) :
    ∃ m, write_reg_32 pci_bar offset v = some m ∧
      read_reg_32 m offset 1 = some [Line.header, Line.row offset v] := by
  have hw : write_reg_32 pci_bar offset v = some
      ((((pci_bar.set offset (byteOf v)).set (offset + 1) (byteOf (v / 256))).set (offset + 2)
      (byteOf (v / 65536))).set (offset + 3) (byteOf (v / 16777216))) := by
    simp [write_reg_32, store32, hin]
  refine ⟨_, hw, ?_⟩
  have hl := load32_store32 pci_bar _ offset v hw hv
  have e : (offset + 0 * 4) % 2 ^ 32 = offset := by omega
  simp only [read_reg_32, read_reg_32_loop, Nat.mul_zero, Nat.add_zero, hl, e]

/-- C6, the example of the specification: offset 0x10, value 0x12345678, on a
region of 32 zero bytes. -/
theorem write_reg_32_read_back_witness :
    0x10 < 2 ^ 32 ∧ 0x10 + 4 ≤ (List.replicate 32 (0 : Byte)).length ∧ 0x12345678 < 2 ^ 32 ∧
    ∃ m, write_reg_32 (List.replicate 32 (0 : Byte)) 0x10 0x12345678 = some m ∧
      read_reg_32 m 0x10 1 = some [Line.header, Line.row 0x10 0x12345678] :=
  ⟨by decide, by decide, by decide,
    write_reg_32_read_back (List.replicate 32 (0 : Byte)) 0x10 0x12345678 (by decide) (by decide)
      (by decide)⟩

/-- C10: `write_reg_32` at an offset with `offset + 4` within the region keeps
the size of the region and every byte outside `offset .. offset+3`. -/
theorem write_reg_32_frame (pci_bar : List Byte) (offset v : Nat)
    (hin : offset + 4 ≤ pci_bar.length) :
    ∃ m, write_reg_32 pci_bar offset v = some m ∧ m.length = pci_bar.length ∧
      ∀ j, j < offset ∨ offset + 4 ≤ j → m[j]? = pci_bar[j]? := by
  have hw : write_reg_32 pci_bar offset v = some
      ((((pci_bar.set offset (byteOf v)).set (offset + 1) (byteOf (v / 256))).set (offset + 2)
      (byteOf (v / 65536))).set (offset + 3) (byteOf (v / 16777216))) := by
    simp [write_reg_32, store32, hin]
  exact ⟨_, hw, store32_length pci_bar _ offset v hw,
    fun j hj => store32_other pci_bar _ offset v j hw hj⟩

/-- C10 on the example region: a write of 0x12345678 at offset 4. -/
theorem write_reg_32_frame_witness :
    4 + 4 ≤ exampleRegion.length ∧
    ∃ m, write_reg_32 exampleRegion 4 0x12345678 = some m ∧ m.length = exampleRegion.length ∧
      ∀ j, j < 4 ∨ 4 + 4 ≤ j → m[j]? = exampleRegion[j]? :=
  ⟨by decide, write_reg_32_frame exampleRegion 4 0x12345678 (by decide)⟩

/-! ## Device address resolver: claims -/

/-- C3: `get_sys_bdf_dir` fails, returning -1 and leaving the output buffer as
it was, exactly when the number of `.` in the address is not 1 or the number of
`:` is neither 1 nor 2; for every other address it returns 0. -/
theorem get_sys_bdf_dir_fails_iff (bdf buf : List Char) :
    (get_sys_bdf_dir bdf buf = (-1, buf) ↔
      (bdf.count '.' ≠ 1 ∨ (bdf.count ':' ≠ 1 ∧ bdf.count ':' ≠ 2))) ∧
    ((get_sys_bdf_dir bdf buf).1 = 0 ↔
      ¬ (bdf.count '.' ≠ 1 ∨ (bdf.count ':' ≠ 1 ∧ bdf.count ':' ≠ 2))) := by
  rw [get_sys_bdf_dir_eq]
  by_cases hd : bdf.count '.' = 1
  · by_cases h2 : bdf.count ':' = 2
    · simp [hd, h2]
    · by_cases h1 : bdf.count ':' = 1
      · simp [hd, h1]
      · simp [hd, h1, h2]
  · simp [hd]

/-- C4: for a short-form address `s` (one `:` and one `.`), `get_sys_bdf_dir`
succeeds with the path `/sys/bus/pci/devices/0000:` followed by `s`, and so it
does on `0000:` followed by `s`. -/
theorem get_sys_bdf_dir_short_form (s buf buf2 : List Char)
    (hcolon : s.count ':' = 1) (hdot : s.count '.' = 1) :
    get_sys_bdf_dir s buf = (0, "/sys/bus/pci/devices/0000:".toList ++ s) ∧
    get_sys_bdf_dir ("0000:".toList ++ s) buf2 = get_sys_bdf_dir s buf := by
  have hc : ("0000:".toList ++ s).count ':' = 2 := by
    rw [List.count_append, hcolon]; decide
  have hp : ("0000:".toList ++ s).count '.' = 1 := by
    rw [List.count_append, hdot]; decide
  rw [get_sys_bdf_dir_eq, get_sys_bdf_dir_eq]
  simp [hcolon, hdot, hc, hp, SYS_DEVICE_DIR, DEFAULT_PCIE_SLOT]

/-- C4 on the address `01:00.0`. -/
theorem get_sys_bdf_dir_short_form_witness :
    "01:00.0".toList.count ':' = 1 ∧ "01:00.0".toList.count '.' = 1 ∧
    get_sys_bdf_dir "01:00.0".toList [] = (0, "/sys/bus/pci/devices/0000:01:00.0".toList) ∧
    get_sys_bdf_dir "0000:01:00.0".toList [] = get_sys_bdf_dir "01:00.0".toList [] :=
  ⟨by decide, by decide,
    get_sys_bdf_dir_short_form "01:00.0".toList [] [] (by decide) (by decide)⟩

/-! ## Resource table parser: claims -/

/-- C1: on a resource table whose line `bar_num` is `0xSTART 0xEND 0xFLAGS`
(fields of one to sixteen hexadecimal digits) with `START ≤ END`, the
memory-resource bit 0x200 set in `FLAGS` and `END - START + 1` below `2^32`,
`get_bar_size` returns 0 and stores `END - START + 1`. -/
theorem get_bar_size_memory_line (fs : List Char → Option (List Char))
    (sys_bdf_dir : List Char) (bar_num bar_size : Nat) (pre : List (List Char))
    (ds de df rest : List Char)
    (hfile : fs (sys_bdf_dir ++ "/resource".toList)
      = some (unlines pre ++ resource_line ds de df ++ rest))
    (hpre : pre.length = bar_num) (hfit : ∀ l ∈ pre, fits_buffer l)
    (hs : is_hex_field ds) (he : is_hex_field de) (hf : is_hex_field df)
    (hle : hex_value ds ≤ hex_value de)
    (hmem : hex_value df &&& 0x200 = 0x200)
    (h32 : hex_value de - hex_value ds + 1 < 2 ^ 32) :
    get_bar_size fs sys_bdf_dir bar_num bar_size = (0, hex_value de - hex_value ds + 1) := by
  rw [get_bar_size_line fs sys_bdf_dir bar_num bar_size pre ds de df rest hfile hpre hfit hs he hf
    hle hmem, Nat.mod_eq_of_lt h32]

/-- C1, the example of the specification: the line
`0x90000000 0x900fffff 0x00040200` is accepted with size 0x100000. -/
theorem get_bar_size_memory_line_witness :
    exampleFs (exampleDir ++ "/resource".toList)
      = some (unlines [] ++ resource_line "90000000".toList "900fffff".toList "00040200".toList
          ++ "0x000000000000e000 0x000000000000e07f 0x00000101\n0x0000000100000000 0x00000001ffffffff 0x000000000014220c\n".toList) ∧
    hex_value "90000000".toList ≤ hex_value "900fffff".toList ∧
    hex_value "00040200".toList &&& 0x200 = 0x200 ∧
    hex_value "900fffff".toList - hex_value "90000000".toList + 1 < 2 ^ 32 ∧
    get_bar_size exampleFs exampleDir 0 0
      = (0, hex_value "900fffff".toList - hex_value "90000000".toList + 1) ∧
    hex_value "900fffff".toList - hex_value "90000000".toList + 1 = 0x100000 :=
  ⟨by decide, by decide, by decide, by decide,
    get_bar_size_memory_line exampleFs exampleDir 0 0 [] "90000000".toList "900fffff".toList
      "00040200".toList
      "0x000000000000e000 0x000000000000e07f 0x00000101\n0x0000000100000000 0x00000001ffffffff 0x000000000014220c\n".toList
      (by decide) (by decide) (by decide) (by decide) (by decide) (by decide)
      (by decide) (by decide) (by decide),
    by decide⟩

/-- C2: when the flags parsed from the line that the BAR index selects do not
have the memory-resource bit 0x200, `get_bar_size` returns -1 and leaves
`*bar_size` as it was, whatever the two addresses are. -/
theorem get_bar_size_not_memory (fs : List Char → Option (List Char))
    (sys_bdf_dir : List Char) (bar_num bar_size : Nat) (fp line rest : List Char)
    (start_addr end_addr flags : Nat)
    (hfile : fs (sys_bdf_dir ++ "/resource".toList) = some fp)
    (hline : fgets_loop (bar_num + 1) fp [] = some (line, rest))
    (hparse : sscanf_bar (cstr line) = [start_addr, end_addr, flags])
    (hflags : flags &&& 0x200 ≠ 0x200) :
    get_bar_size fs sys_bdf_dir bar_num bar_size = (-1, bar_size) := by
  unfold get_bar_size
  have hmask : flags &&& IORESOURCE_MEM ≠ IORESOURCE_MEM := hflags
  simp only [hfile, hline, hparse]
  exact if_pos hmask

/-- C2 on the I/O-port line `0x000000000000e000 0x000000000000e07f 0x00000101`
of the example table. -/
theorem get_bar_size_not_memory_witness :
    exampleFs (exampleDir ++ "/resource".toList) = some exampleResource ∧
    fgets_loop (1 + 1) exampleResource []
      = some ("0x000000000000e000 0x000000000000e07f 0x00000101\n".toList,
          "0x0000000100000000 0x00000001ffffffff 0x000000000014220c\n".toList) ∧
    sscanf_bar (cstr "0x000000000000e000 0x000000000000e07f 0x00000101\n".toList)
      = [0xe000, 0xe07f, 0x101] ∧
    0x101 &&& 0x200 ≠ 0x200 ∧
    get_bar_size exampleFs exampleDir 1 7 = (-1, 7) :=
  ⟨by decide, by decide, by decide, by decide,
    get_bar_size_not_memory exampleFs exampleDir 1 7 exampleResource
      "0x000000000000e000 0x000000000000e07f 0x00000101\n".toList
      "0x0000000100000000 0x00000001ffffffff 0x000000000014220c\n".toList 0xe000 0xe07f 0x101
      (by decide) (by decide) (by decide) (by decide)⟩

/-- C9 as stated fails: on the 4 GiB memory BAR
`0x0000000100000000 0x00000001ffffffff 0x000000000014220c` the 64-bit size is
0x100000000, and `get_bar_size` succeeds storing 0. -/
theorem get_bar_size_not_64bit :
    exampleFs (exampleDir ++ "/resource".toList)
      = some (unlines ["0x90000000 0x900fffff 0x00040200".toList,
            "0x000000000000e000 0x000000000000e07f 0x00000101".toList]
          ++ resource_line "0000000100000000".toList "00000001ffffffff".toList
            "000000000014220c".toList ++ []) ∧
    hex_value "0000000100000000".toList ≤ hex_value "00000001ffffffff".toList ∧
    hex_value "000000000014220c".toList &&& 0x200 = 0x200 ∧
    (hex_value "00000001ffffffff".toList - hex_value "0000000100000000".toList + 1) % 2 ^ 64
      = 0x100000000 ∧
    get_bar_size exampleFs exampleDir 2 7 = (0, 0) :=
  ⟨by decide, by decide, by decide, by decide, by decide⟩

/-- C9, amended: on a resource table whose line `bar_num` is a well-formed
memory-resource line with `START ≤ END`, however large the range,
`get_bar_size` returns 0 and stores `END - START + 1` reduced modulo `2^32`:
the 64-bit size narrowed to the `uint32_t` it is stored in. -/
theorem get_bar_size_narrowed (fs : List Char → Option (List Char))
    (sys_bdf_dir : List Char) (bar_num bar_size : Nat) (pre : List (List Char))
    (ds de df rest : List Char)
    (hfile : fs (sys_bdf_dir ++ "/resource".toList)
      = some (unlines pre ++ resource_line ds de df ++ rest))
    (hpre : pre.length = bar_num) (hfit : ∀ l ∈ pre, fits_buffer l)
    (hs : is_hex_field ds) (he : is_hex_field de) (hf : is_hex_field df)
    (hle : hex_value ds ≤ hex_value de)
    (hmem : hex_value df &&& 0x200 = 0x200) :
    get_bar_size fs sys_bdf_dir bar_num bar_size
      = (0, ((hex_value de - hex_value ds + 1) % 2 ^ 64) % 2 ^ 32) := by
  rw [get_bar_size_line fs sys_bdf_dir bar_num bar_size pre ds de df rest hfile hpre hfit hs he hf
    hle hmem]
  congr 1
  omega

/-- C9 amended, on the 4 GiB memory BAR of the example table. -/
theorem get_bar_size_narrowed_witness :
    hex_value "0000000100000000".toList ≤ hex_value "00000001ffffffff".toList ∧
    hex_value "000000000014220c".toList &&& 0x200 = 0x200 ∧
    get_bar_size exampleFs exampleDir 2 7
      = (0, ((hex_value "00000001ffffffff".toList - hex_value "0000000100000000".toList + 1)
          % 2 ^ 64) % 2 ^ 32) :=
  ⟨by decide, by decide,
    get_bar_size_narrowed exampleFs exampleDir 2 7
      ["0x90000000 0x900fffff 0x00040200".toList,
        "0x000000000000e000 0x000000000000e07f 0x00000101".toList]
      "0000000100000000".toList "00000001ffffffff".toList "000000000014220c".toList []
      (by decide) (by decide) (by decide) (by decide) (by decide) (by decide) (by decide)
      (by decide)⟩

/-! ## Command surface: claims -/

theorem parse_opt_loop_valid (getopt : Getopt → Int × Getopt) (argc : Nat) :
    ∀ (fuel : Nat) (g : Getopt) (ip : input_param) (sem : Nat) (r : input_param),
      request_inv ip → parse_opt_loop getopt argc fuel g ip sem = some (0, r) → r.valid := by
  intro fuel
  induction fuel with
  | zero => intro g ip sem r _ h; simp [parse_opt_loop] at h
  | succ fuel ih =>
    intro g ip sem r hinv h
    obtain ⟨hb, hl, hc⟩ := hinv
    unfold parse_opt_loop at h
    simp only at h
    repeat' split at h
    all_goals first
      | (simp at h; done)
      | (obtain rfl : ip = r := by simpa using h
         refine ⟨?_, hb, ‹¬ip.bdf = []›, hl, hc⟩
         cases hop : ip.operate <;> simp_all)
      | (refine ih _ _ _ _ ?_ h
         refine ⟨hb, hl, fun _ => ?_⟩
         simp only
         omega)
      | (refine ih _ _ _ _ ?_ h
         exact ⟨hb, hl, fun hw => by cases hw⟩)
      | (refine ih _ _ _ _ ?_ h
         refine ⟨hb, ?_, hc⟩
         simp only [BDF_WIDTH] at *
         omega)
      | (refine ih _ _ _ _ ?_ h
         refine ⟨?_, hl, hc⟩
         simp only [MAX_BAR_NUM] at *
         omega)

/-- One turn of the loop of `parse_opt`: when `getopt_long` returns `r` and the
next argument is a COUNT whose value as a `uint32_t` exceeds 0x100000, the
function returns -1. -/
theorem parse_opt_loop_count_over (getopt : Getopt → Int × Getopt) (argc fuel : Nat)
    (g : Getopt) (ip : input_param) (sem : Nat) (optarg a : List Char)
    (hret : (getopt g).1 = optchar 'r') (hsem : sem ≠ 1)
    (harg : (getopt g).2.optarg = some optarg)
    (ha : (getopt g).2.argv[(getopt g).2.optind]? = some a)
    (hind : (getopt g).2.optind ≠ argc) (hdash : a.head? ≠ some '-')
    (hbig : toU32 (strtol a 0) > 0x100000) :
    ∃ r, parse_opt_loop getopt argc (fuel + 1) g ip sem = some (-1, r) := by
  have hne : ¬ (optchar 'r' = -1) := by decide
  refine ⟨{ operate := OP_READ, bdf := ip.bdf, bar_num := ip.bar_num,
            offset := toU32 (strtol optarg 16), count := toU32 (strtol a 0) }, ?_⟩
  unfold parse_opt_loop
  simp only [hret, hne, if_false, if_true, hsem, harg, ha, hind, hdash, ne_eq,
    not_false_eq_true, and_self, hbig]

/-- C8: when `parse_opt` returns 0, whatever the behaviour of `getopt_long`,
the stored request has operation Read or Write (not none), a BAR index below
6, a non-empty device address shorter than 16 characters, and, for a Read, a
count of at most 1,048,576. -/
theorem parse_opt_accepts_valid (getopt : Getopt → Int × Getopt) (fuel : Nat)
    (argv : List (List Char)) (ip : input_param)
    (h : parse_opt_with getopt fuel argv = some (0, ip)) :
    (ip.operate = OP_READ ∨ ip.operate = OP_WRITE) ∧ ip.operate ≠ OP_NONE ∧
    ip.bar_num < 6 ∧ ip.bdf ≠ [] ∧ ip.bdf.length < 16 ∧
    (ip.operate = OP_READ → ip.count ≤ 1048576) := by
  have hinit : request_inv input_param.initial :=
    ⟨by decide, by decide, fun hw => by cases hw⟩
  obtain ⟨hop, hbar, hne, hlen, hcnt⟩ :=
    parse_opt_loop_valid getopt argv.length fuel (Getopt.start argv) input_param.initial 0 ip
      hinit h
  refine ⟨hop, ?_, hbar, hne, hlen, hcnt⟩
  rcases hop with hop | hop <;> simp [hop]

/-- C8 on the command line `mmio-reg -s 01:00.0 -b 2 -r 0x10 3` with the GNU
`getopt_long`. -/
theorem parse_opt_accepts_valid_witness :
    parse_opt_with getopt_long 10 argv_read3
      = some (0, { operate := OP_READ, bdf := "01:00.0".toList, bar_num := 2, offset := 0x10,
                   count := 3 }) ∧
    ((OP_READ = OP_READ ∨ OP_READ = OP_WRITE) ∧ OP_READ ≠ OP_NONE ∧
      2 < 6 ∧ "01:00.0".toList ≠ [] ∧ "01:00.0".toList.length < 16 ∧
      (OP_READ = OP_READ → 3 ≤ 1048576)) :=
  ⟨by decide,
    parse_opt_accepts_valid getopt_long 10 argv_read3
      { operate := OP_READ, bdf := "01:00.0".toList, bar_num := 2, offset := 0x10, count := 3 }
      (by decide)⟩

/-- C7 fails on `mmio-reg -s 01:00.0 -r 0 4294967297`: the COUNT argument
denotes 4294967297, above 1,048,576, yet `parse_opt` returns 0, the count
stored being 4294967297 narrowed to `uint32_t`, that is 1. -/
theorem parse_opt_count_narrowed :
    strtol "4294967297".toList 0 = 4294967297 ∧
    parse_opt 10 argv_big_count
      = some (0, { operate := OP_READ, bdf := "01:00.0".toList, bar_num := 0, offset := 0,
                   count := 1 }) :=
  ⟨by decide, by decide⟩

end MmioReg
